import Mathlib

/-!
# Cyberiad — verification of the session-coordination core

Shallow embedding of the Cyberiad repository: the SQL schema
(`setup_db.sql`), the Next.js request middleware
(`src/frontend/src/middleware.ts`), the auth service
(`src/frontend/src/services/auth.ts`), and spec-modelled parts of the
backend (Message Store append, Agent Orchestrator, markRead) whose
Python sources are not part of the corpus.

UUIDs and timestamps are modelled as `Nat`, SQL text and JSONB as
`String`.  SQL `NULL` is `Option`.
-/

namespace Cyberiad

/-! ## Enum types (setup_db.sql: CREATE TYPE) -/

inductive UserRole where
  | admin
  | user
deriving DecidableEq, Repr

inductive AgentTypeE where
  | lawyer
  | accountant
  | psychologist
  | businessAnalyst
  | ethicsAdvisor
  | moderator
deriving DecidableEq, Repr

inductive ThreadStatus where
  | active
  | archived
  | closed
deriving DecidableEq, Repr

/-! ## Table rows (setup_db.sql: CREATE TABLE) -/

/-- A row of `users`. -/
structure UserRow where
  id : Nat
  username : String
  email : String
  hashed_password : String
  role : UserRole
  created_at : Nat
  last_login : Option Nat
  is_active : Bool
deriving DecidableEq, Repr

/-- A row of `threads`.  `title VARCHAR(200) NOT NULL`,
`description TEXT` (nullable), `settings JSONB`. -/
structure ThreadRow where
  id : Nat
  title : String
  description : Option String
  owner_id : Nat
  status : ThreadStatus
  created_at : Nat
  updated_at : Nat
  settings : String
deriving DecidableEq, Repr

/-- A row of `thread_participants`; PRIMARY KEY (thread_id, user_id),
`last_read_at` nullable. -/
structure ThreadParticipantRow where
  thread_id : Nat
  user_id : Nat
  joined_at : Nat
  last_read_at : Option Nat
  is_active : Bool
deriving DecidableEq, Repr

/-- A row of `thread_agents`.  Note: `thread_id` carries no NOT NULL in
the schema, hence `Option Nat`; the only declared key is the `id`
primary key. -/
structure ThreadAgentRow where
  id : Nat
  thread_id : Option Nat
  agent_type : AgentTypeE
  is_active : Bool
  settings : String
  created_at : Nat
deriving DecidableEq, Repr

/-- A row of `messages`; `user_id` and `agent_id` nullable,
`parent_id` a nullable self-reference, `edited_at` / `deleted_at`
tombstone fields. -/
structure MessageRow where
  id : Nat
  thread_id : Nat
  user_id : Option Nat
  agent_id : Option Nat
  content : String
  metadata : String
  parent_id : Option Nat
  created_at : Nat
  edited_at : Option Nat
  deleted_at : Option Nat
deriving DecidableEq, Repr

/-! ## SQL expression semantics -/

/-- Postgres `TRIM(s)` with no explicit character set: strips the space
character (and only the space character) from both ends. -/
def sqlTrim (s : String) : String :=
  ⟨((s.data.dropWhile (fun c => c = ' ')).reverse.dropWhile
      (fun c => c = ' ')).reverse⟩

/-- CHECK constraint `thread_title_not_empty`:
`LENGTH(TRIM(title)) > 0`. -/
def thread_title_not_empty (t : ThreadRow) : Bool :=
  0 < (sqlTrim t.title).length

/-- CHECK constraint `message_sender_check`:
`(user_id IS NOT NULL AND agent_id IS NULL) OR
 (user_id IS NULL AND agent_id IS NOT NULL)`. -/
def message_sender_check (m : MessageRow) : Bool :=
  (m.user_id.isSome && m.agent_id.isNone) ||
    (m.user_id.isNone && m.agent_id.isSome)

/-- A nullable foreign key is satisfied when NULL or when the target id
is present. -/
def fkOk (x : Option Nat) (ids : List Nat) : Bool :=
  match x with
  | none => true
  | some v => ids.contains v

/-! ## Database state and statements -/

/-- The persisted state: one list of rows per table
(read receipts carry no claim and are omitted). -/
structure DBState where
  users : List UserRow
  threads : List ThreadRow
  thread_participants : List ThreadParticipantRow
  thread_agents : List ThreadAgentRow
  messages : List MessageRow
deriving DecidableEq, Repr

/-- The freshly created database. -/
def DBState.empty : DBState := ⟨[], [], [], [], []⟩

/-- INSERT INTO users: primary key and the two UNIQUE columns. -/
def insertUser (s : DBState) (u : UserRow) : Option DBState :=
  if !(s.users.any (fun r =>
        r.id == u.id || r.username == u.username || r.email == u.email))
  then some { s with users := s.users ++ [u] }
  else none

/-- INSERT INTO threads: primary key, owner FK, and the
`thread_title_not_empty` CHECK. -/
def insertThread (s : DBState) (t : ThreadRow) : Option DBState :=
  if !(s.threads.any (fun r => r.id == t.id))
      && s.users.any (fun u => u.id == t.owner_id)
      && thread_title_not_empty t
  then some { s with threads := s.threads ++ [t] }
  else none

/-- INSERT INTO thread_participants: composite primary key and the two
FKs. -/
def insertParticipant (s : DBState) (p : ThreadParticipantRow) :
    Option DBState :=
  if !(s.thread_participants.any (fun r =>
        r.thread_id == p.thread_id && r.user_id == p.user_id))
      && s.threads.any (fun t => t.id == p.thread_id)
      && s.users.any (fun u => u.id == p.user_id)
  then some { s with thread_participants := s.thread_participants ++ [p] }
  else none

/-- INSERT INTO thread_agents: only the `id` primary key and the thread
FK are checked — the schema declares no uniqueness over
(thread_id, agent_type). -/
def insertThreadAgent (s : DBState) (a : ThreadAgentRow) :
    Option DBState :=
  if !(s.thread_agents.any (fun r => r.id == a.id))
      && fkOk a.thread_id (s.threads.map (fun t => t.id))
  then some { s with thread_agents := s.thread_agents ++ [a] }
  else none

/-- INSERT INTO messages: primary key, thread FK, nullable user / agent
/ parent FKs, and the `message_sender_check` CHECK. -/
def insertMessage (s : DBState) (m : MessageRow) : Option DBState :=
  if !(s.messages.any (fun r => r.id == m.id))
      && s.threads.any (fun t => t.id == m.thread_id)
      && fkOk m.user_id (s.users.map (fun u => u.id))
      && fkOk m.agent_id (s.thread_agents.map (fun a => a.id))
      && fkOk m.parent_id (s.messages.map (fun r => r.id))
      && message_sender_check m
  then some { s with messages := s.messages ++ [m] }
  else none

/-- UPDATE threads SET title = newTitle WHERE id = tid; the CHECK is
re-evaluated on every updated row and the `update_threads_updated_at`
trigger stamps `updated_at`. -/
def updateThreadTitle (s : DBState) (tid : Nat) (newTitle : String)
    (now : Nat) : Option DBState :=
  if s.threads.any (fun t => t.id == tid)
      && (sqlTrim newTitle).length == 0
  then none
  else some { s with threads := s.threads.map (fun t =>
      if t.id == tid then { t with title := newTitle, updated_at := now }
      else t) }

/-- Soft delete (§3: tombstone): UPDATE messages SET deleted_at = ts
WHERE id = mid; content and author are retained. -/
def tombstoneMessage (s : DBState) (mid : Nat) (ts : Nat) : DBState :=
  { s with messages := s.messages.map (fun m =>
      if m.id == mid then { m with deleted_at := some ts } else m) }

/-- The ids of the messages a DELETE of thread `tid` would cascade
away. -/
def deadMessageIds (s : DBState) (tid : Nat) : List Nat :=
  (s.messages.filter (fun m => m.thread_id == tid)).map (fun m => m.id)

/-- The ids of the agent bindings a DELETE of thread `tid` would
cascade away. -/
def deadAgentIds (s : DBState) (tid : Nat) : List Nat :=
  (s.thread_agents.filter (fun a => a.thread_id == some tid)).map
    (fun a => a.id)

/-- Does some surviving message still reference a cascaded row through
the NO ACTION foreign keys `messages.parent_id` /
`messages.agent_id`? -/
def cascadeBlocked (s : DBState) (tid : Nat) : Bool :=
  (s.messages.filter (fun m => m.thread_id != tid)).any (fun m =>
    (match m.parent_id with
     | some p => (deadMessageIds s tid).contains p
     | none => false) ||
    (match m.agent_id with
     | some a => (deadAgentIds s tid).contains a
     | none => false))

/-- The state after the cascade of a DELETE of thread `tid`. -/
def cascadeDelete (s : DBState) (tid : Nat) : DBState :=
  { users := s.users
    threads := s.threads.filter (fun t => t.id != tid)
    thread_participants := s.thread_participants.filter (fun p =>
      p.thread_id != tid)
    thread_agents := s.thread_agents.filter (fun a =>
      a.thread_id != some tid)
    messages := s.messages.filter (fun m => m.thread_id != tid) }

/-- DELETE FROM threads WHERE id = tid, as Postgres executes it:
`ON DELETE CASCADE` removes the thread's messages, participants and
agent bindings, while the NO ACTION references `messages.parent_id` and
`messages.agent_id` make the whole statement fail if a surviving
message still points at a cascaded row. -/
def deleteThread (s : DBState) (tid : Nat) : Option DBState :=
  if cascadeBlocked s tid then none
  else some (cascadeDelete s tid)

/-- The persisted states reachable through the schema's statements. -/
inductive Reach : DBState → Prop where
  | empty : Reach DBState.empty
  | user {s u s'} : Reach s → insertUser s u = some s' → Reach s'
  | thread {s t s'} : Reach s → insertThread s t = some s' → Reach s'
  | participant {s p s'} : Reach s → insertParticipant s p = some s' →
      Reach s'
  | agent {s a s'} : Reach s → insertThreadAgent s a = some s' → Reach s'
  | message {s m s'} : Reach s → insertMessage s m = some s' → Reach s'
  | titleUpdate {s tid ti now s'} : Reach s →
      updateThreadTitle s tid ti now = some s' → Reach s'
  | tombstone {s mid ts} : Reach s → Reach (tombstoneMessage s mid ts)
  | delete {s tid s'} : Reach s → deleteThread s tid = some s' → Reach s'

/-! ## Next.js middleware (src/frontend/src/middleware.ts, first
variant, lines 10-35) -/

namespace Frontend

/-- The outcome of the middleware: a redirect to a path with query
parameters, or `NextResponse.next()`. -/
inductive MwResponse where
  | redirect (path : String) (query : List (String × String))
  | next
deriving DecidableEq, Repr

/-- `const protectedRoutes = ['/threads']`. -/
def protectedRoutes : List String := ["/threads"]

/-- `const authRoutes = ['/login', '/register']`. -/
def authRoutes : List String := ["/login", "/register"]

/-- JavaScript truthiness of `request.cookies.get('token')?.value`:
`undefined` and the empty string are falsy. -/
def tokenTruthy : Option String → Bool
  | none => false
  | some v => v != ""

/-- The `middleware` function: `tokenCookie` is the value of the
`token` cookie when that cookie is present. -/
def middleware (tokenCookie : Option String) (pathname : String) :
    MwResponse :=
  let token := tokenTruthy tokenCookie
  if token && authRoutes.contains pathname then
    MwResponse.redirect "/threads" []
  else if !token && protectedRoutes.any (fun route =>
      pathname.startsWith route) then
    MwResponse.redirect "/login" [("from", pathname)]
  else if pathname == "/" then
    if token then MwResponse.redirect "/threads" []
    else MwResponse.redirect "/login" []
  else
    MwResponse.next

/-- The routing table claimed for the middleware, with the one
amendment the code forces: a token counts only when the cookie value is
non-empty (JS truthiness), not merely when the cookie is present. -/
def middlewareClaimed (tokenNonEmpty : Bool) (pathname : String) :
    MwResponse :=
  if tokenNonEmpty && (pathname == "/login" || pathname == "/register")
  then MwResponse.redirect "/threads" []
  else if !tokenNonEmpty && pathname.startsWith "/threads" then
    MwResponse.redirect "/login" [("from", pathname)]
  else if pathname == "/" then
    if tokenNonEmpty then MwResponse.redirect "/threads" []
    else MwResponse.redirect "/login" []
  else
    MwResponse.next

/-! ## Auth service (src/frontend/src/services/auth.ts) -/

/-- The `AuthResponse` payload returned by the auth API. -/
structure AuthResponse where
  access_token : String
  token_type : String
  user_id : String
  username : String
deriving DecidableEq, Repr

/-- The options `Cookies.set` is called with. -/
structure CookieAttrs where
  expires : Nat
  path : String
  sameSite : String
  secure : Bool
deriving DecidableEq, Repr

/-- One stored cookie. -/
structure CookieRec where
  value : String
  attrs : CookieAttrs
deriving DecidableEq, Repr

/-- The browser cookie store, keyed by cookie name. -/
abbrev CookieJar := List (String × CookieRec)

/-- `Cookies.set(name, value, opts)`: replaces any cookie of that
name. -/
def cookiesSet (jar : CookieJar) (nm : String) (c : CookieRec) :
    CookieJar :=
  (nm, c) :: jar.filter (fun e => e.1 != nm)

/-- `Cookies.get(name)`. -/
def getCookie (jar : CookieJar) (nm : String) : Option CookieRec :=
  (jar.find? (fun e => e.1 == nm)).map (fun e => e.2)

/-- `authService.saveToken`: a `token` cookie, 7-day expiry, path `/`,
sameSite strict, secure exactly in production. -/
def saveToken (isProd : Bool) (jar : CookieJar) (tok : String) :
    CookieJar :=
  cookiesSet jar "token" ⟨tok, ⟨7, "/", "strict", isProd⟩⟩

/-- An error thrown by `api.post` (the awaited call rejecting). -/
inductive ApiError where
  | httpError (status : Nat) (msg : String)
  | networkError (msg : String)
deriving DecidableEq, Repr

/-- `authService.login`: awaits `api.post('/api/auth/token', …)` —
modelled by its result `apiResult` — then `this.saveToken(…)` and
returns the response; a rejection propagates before `saveToken`
runs. -/
def login (isProd : Bool) (apiResult : Except ApiError AuthResponse)
    (jar : CookieJar) : Except ApiError AuthResponse × CookieJar :=
  match apiResult with
  | Except.ok r => (Except.ok r, saveToken isProd jar r.access_token)
  | Except.error e => (Except.error e, jar)

/-- `authService.register`: awaits `api.post('/api/auth/register', …)`
then `this.saveToken(…)`; same control flow as `login`. -/
def register (isProd : Bool) (apiResult : Except ApiError AuthResponse)
    (jar : CookieJar) : Except ApiError AuthResponse × CookieJar :=
  match apiResult with
  | Except.ok r => (Except.ok r, saveToken isProd jar r.access_token)
  | Except.error e => (Except.error e, jar)

end Frontend

/-! ## Message Store (spec-modelled) -/

namespace MessageStore

/-- A message author: exactly one of a user id or an agent-binding
id. -/
inductive AuthorRef where
  | userRef (uid : Nat)
  | agentRef (bindingId : Nat)
deriving DecidableEq, Repr

/-- A persisted message of the store, carrying the per-thread sequence
number the spec assigns at append time. -/
structure StoredMsg where
  seq : Nat
  author : AuthorRef
  content : String
  parent_id : Option Nat
  created_at : Nat
deriving DecidableEq, Repr

/-- Modelled from the spec: the Message Store state — the backend
`core/persistence.py` / `db/crud.py` named by the README are not in
the corpus.  Per §4.1 the store keeps, per thread id, an append-only
ordered log. -/
def StoreState : Type := Nat → List StoredMsg

/-- The store with no messages. -/
def emptyStore : StoreState := fun _ => []

/-- Modelled from the spec: `append(threadId, authorRef, content,
parentId?)` "assigns the next sequence number for that thread
atomically with the write"; per-thread mutual exclusion makes each
append one atomic step, and the sequence number does not depend on the
wall-clock argument `now`. -/
def append (s : StoreState) (tid : Nat) (author : AuthorRef)
    (content : String) (pid : Option Nat) (now : Nat) :
    StoreState × StoredMsg :=
  let log := s tid
  let msg : StoredMsg := ⟨log.length + 1, author, content, pid, now⟩
  (fun t => if t = tid then log ++ [msg] else s t, msg)

/-- Store states reachable by any interleaving of successful appends
(to any threads, with arbitrary — possibly tied — timestamps). -/
inductive StoreReach : StoreState → Prop where
  | empty : StoreReach emptyStore
  | step {s tid a c pid now} : StoreReach s →
      StoreReach (append s tid a c pid now).1

end MessageStore

/-! ## Agent Orchestrator (spec-modelled) -/

namespace Orchestrator

/-- The mutual-exclusion key: (thread, agent-type). -/
abbrev OrchKey := Nat × AgentTypeE

/-- The non-idle phases of an invocation; Idle is the absence of an
in-flight record. -/
inductive InvPhase where
  | selecting
  | contextBuilding
  | invoking
  | posting
deriving DecidableEq, Repr

/-- Modelled from the spec: the orchestrator's shared state — the
backend orchestration code named by the README is not in the corpus.
`inflight` holds the invocation records in `Selecting`..`Posting`;
`pending` the coalesced re-triggers (at most one per key is the
property at issue). -/
structure OrchState where
  inflight : List (OrchKey × InvPhase)
  pending : List OrchKey
deriving DecidableEq, Repr

/-- The orchestrator before any trigger. -/
def emptyOrch : OrchState := ⟨[], []⟩

/-- Is some invocation for this key in flight? -/
def keyBusy (o : OrchState) (k : OrchKey) : Bool :=
  o.inflight.any (fun i => i.1 == k)

/-- Modelled from the spec: a "response requested" trigger.  A trigger
arriving while the key is busy is coalesced (queued at most once, not
stacked); otherwise a fresh invocation enters `Selecting`. -/
def trigger (o : OrchState) (k : OrchKey) : OrchState :=
  if keyBusy o k then
    if o.pending.contains k then o
    else { o with pending := k :: o.pending }
  else
    { o with inflight := (k, InvPhase.selecting) :: o.inflight }

/-- The forward edges `Selecting → ContextBuilding → Invoking →
Posting` of the per-key state machine. -/
def nextPhase : InvPhase → Option InvPhase
  | InvPhase.selecting => some InvPhase.contextBuilding
  | InvPhase.contextBuilding => some InvPhase.invoking
  | InvPhase.invoking => some InvPhase.posting
  | InvPhase.posting => none

/-- Modelled from the spec: the invocation for key `k` makes progress
along the forward edges (a completed `Posting` leaves via
`release`). -/
def advance (o : OrchState) (k : OrchKey) : OrchState :=
  { o with inflight := o.inflight.map (fun i =>
      if i.1 == k then (i.1, (nextPhase i.2).getD i.2) else i) }

/-- Modelled from the spec: the key frees — either `Posting`
completed, or the error/cancellation edge fired from any non-terminal
state.  A coalesced pending re-trigger, if any, starts immediately as
the single new invocation for the key. -/
def release (o : OrchState) (k : OrchKey) : OrchState :=
  let rest := o.inflight.filter (fun i => i.1 != k)
  if o.pending.contains k then
    { inflight := (k, InvPhase.selecting) :: rest
      pending := o.pending.filter (fun x => x != k) }
  else
    { inflight := rest, pending := o.pending }

/-- Orchestrator states reachable by any interleaving of triggers,
progress steps and releases. -/
inductive OrchReach : OrchState → Prop where
  | empty : OrchReach emptyOrch
  | trig {o k} : OrchReach o → OrchReach (trigger o k)
  | adv {o k} : OrchReach o → OrchReach (advance o k)
  | rel {o k} : OrchReach o → OrchReach (release o k)

end Orchestrator

/-! ## markRead (spec-modelled, over the thread_participants rows) -/

/-- Modelled from the spec: the marker update of
`markRead(threadId, userId, messageId)` — the backend `db/crud.py`
named by the README is not in the corpus.  §4.1: idempotent and a
no-op if it would regress the marker; an unset marker is below every
message id. -/
def bumpMarker (cur : Option Nat) (mid : Nat) : Option Nat :=
  match cur with
  | some c => if mid ≤ c then some c else some mid
  | none => some mid

/-- Modelled from the spec: `markRead(threadId, userId, messageId)`
applied to the `thread_participants` rows (schema: `last_read_at` on
the (thread_id, user_id) row). -/
def markRead (ps : List ThreadParticipantRow) (tid uid mid : Nat) :
    List ThreadParticipantRow :=
  ps.map (fun p =>
    if p.thread_id == tid && p.user_id == uid then
      { p with last_read_at := bumpMarker p.last_read_at mid }
    else p)

/-- Marker `b` is no regression of marker `a`: a set marker stays set
and never decreases. -/
def noRegress (a b : Option Nat) : Prop :=
  match a with
  | none => True
  | some c => ∃ c', b = some c' ∧ c ≤ c'

/-- A whole sequence of `markRead` calls, in the given order. -/
def applyReads (ps : List ThreadParticipantRow)
    (calls : List (Nat × Nat × Nat)) : List ThreadParticipantRow :=
  calls.foldl (fun s c => markRead s c.1 c.2.1 c.2.2) ps

/-! ## Concrete fixtures -/

/-- A user row. -/
def aliceRow : UserRow :=
  ⟨1, "alice", "alice@example.com", "pw", UserRole.user, 0, none, true⟩

/-- A thread row owned by user 1. -/
def helloThread : ThreadRow :=
  ⟨1, "Hello", none, 1, ThreadStatus.active, 0, 0, ""⟩

/-- A thread row whose title is a single tab character. -/
def tabTitleThread : ThreadRow :=
  ⟨2, "\t", none, 1, ThreadStatus.active, 0, 0, ""⟩

/-- Two bindings of the same agent-type to the same thread. -/
def lawyerBinding1 : ThreadAgentRow :=
  ⟨1, some 1, AgentTypeE.lawyer, true, "", 0⟩

/-- Second binding, distinct id, same (thread, agent-type) pair. -/
def lawyerBinding2 : ThreadAgentRow :=
  ⟨2, some 1, AgentTypeE.lawyer, true, "", 0⟩

/-- A message row claiming both a user and an agent author. -/
def msgBothAuthors : MessageRow :=
  ⟨1, 1, some 1, some 1, "hi", "", none, 0, none, none⟩

/-- A message row whose parent id does not exist. -/
def msgOrphan : MessageRow :=
  ⟨1, 1, some 1, none, "hi", "", some 99, 0, none, none⟩

/-- The database holding only `aliceRow`. -/
def dbWithAlice : DBState := { DBState.empty with users := [aliceRow] }

/-- `dbWithAlice` plus `helloThread`. -/
def dbWithThread : DBState := { dbWithAlice with threads := [helloThread] }

/-- `dbWithThread` plus the duplicate lawyer bindings. -/
def dbTwoLawyers : DBState :=
  { dbWithThread with thread_agents := [lawyerBinding1, lawyerBinding2] }

/-- `dbWithAlice` plus the tab-titled thread. -/
def dbTabTitle : DBState :=
  { dbWithAlice with threads := [tabTitleThread] }

/-- One participant row with marker 5, used to instantiate the markRead
properties. -/
def partRow : ThreadParticipantRow := ⟨1, 1, 0, some 5, true⟩

/-- `dbWithThread` plus the first lawyer binding only. -/
def dbOneLawyer : DBState :=
  { dbWithThread with thread_agents := [lawyerBinding1] }

/-- Trimming every whitespace character from both ends — the reading
of "trimming whitespace" in the claim, to contrast with `sqlTrim`,
which strips the space character only. -/
def wsTrim (s : String) : String :=
  ⟨((s.data.dropWhile Char.isWhitespace).reverse.dropWhile
      Char.isWhitespace).reverse⟩

/-- The store after two appends to thread 1 with tied wall-clock
timestamps. -/
def twoAppendsStore : MessageStore.StoreState :=
  (MessageStore.append
    (MessageStore.append MessageStore.emptyStore 1
      (MessageStore.AuthorRef.userRef 1) "Is this contract valid?"
      none 5).1
    1 (MessageStore.AuthorRef.agentRef 1) "Reviewing." none 5).1

/-- The orchestrator after two simultaneous triggers for the same
(thread, agent-type) key. -/
def orchTwoTriggers : Orchestrator.OrchState :=
  Orchestrator.trigger
    (Orchestrator.trigger Orchestrator.emptyOrch (1, AgentTypeE.lawyer))
    (1, AgentTypeE.lawyer)

/-! ## Helper lemmas: shapes of the successful statements -/

theorem if_some_eq_some {α : Type} {c : Prop} [Decidable c] {v s' : α}
    (h : (if c then some v else none) = some s') : c ∧ v = s' := by
  split at h
  · exact ⟨by assumption, Option.some.inj h⟩
  · exact absurd h (by simp)

theorem if_none_eq_some {α : Type} {c : Prop} [Decidable c] {v s' : α}
    (h : (if c then none else some v) = some s') : ¬c ∧ v = s' := by
  split at h
  · exact absurd h (by simp)
  · exact ⟨by assumption, Option.some.inj h⟩

theorem insertUser_some {s : DBState} {u : UserRow} {s' : DBState}
    (h : insertUser s u = some s') :
    s' = { s with users := s.users ++ [u] } := by
  unfold insertUser at h
  exact (if_some_eq_some h).2.symm

theorem insertThread_some {s : DBState} {t : ThreadRow} {s' : DBState}
    (h : insertThread s t = some s') :
    s' = { s with threads := s.threads ++ [t] } ∧
      thread_title_not_empty t = true := by
  unfold insertThread at h
  obtain ⟨hc, hv⟩ := if_some_eq_some h
  simp only [Bool.and_eq_true] at hc
  exact ⟨hv.symm, hc.2⟩

theorem insertParticipant_some {s : DBState} {p : ThreadParticipantRow}
    {s' : DBState} (h : insertParticipant s p = some s') :
    s' = { s with thread_participants := s.thread_participants ++ [p] } := by
  unfold insertParticipant at h
  exact (if_some_eq_some h).2.symm

theorem insertThreadAgent_some {s : DBState} {a : ThreadAgentRow}
    {s' : DBState} (h : insertThreadAgent s a = some s') :
    s' = { s with thread_agents := s.thread_agents ++ [a] } ∧
      s.thread_agents.any (fun r => r.id == a.id) = false := by
  unfold insertThreadAgent at h
  obtain ⟨hc, hv⟩ := if_some_eq_some h
  simp only [Bool.and_eq_true, Bool.not_eq_true'] at hc
  exact ⟨hv.symm, hc.1⟩

theorem insertMessage_some {s : DBState} {m : MessageRow} {s' : DBState}
    (h : insertMessage s m = some s') :
    s' = { s with messages := s.messages ++ [m] } ∧
      message_sender_check m = true ∧
      fkOk m.parent_id (s.messages.map (fun r => r.id)) = true := by
  unfold insertMessage at h
  obtain ⟨hc, hv⟩ := if_some_eq_some h
  simp only [Bool.and_eq_true] at hc
  exact ⟨hv.symm, hc.2, hc.1.2⟩

theorem updateThreadTitle_some {s : DBState} {tid : Nat} {ti : String}
    {now : Nat} {s' : DBState}
    (h : updateThreadTitle s tid ti now = some s') :
    s' = { s with threads := s.threads.map (fun t =>
        if t.id == tid then { t with title := ti, updated_at := now }
        else t) } ∧
      ¬(s.threads.any (fun t => t.id == tid) = true ∧
        (sqlTrim ti).length = 0) := by
  unfold updateThreadTitle at h
  obtain ⟨hc, hv⟩ := if_none_eq_some h
  refine ⟨hv.symm, ?_⟩
  intro hcontra
  exact hc (by simp [Bool.and_eq_true, hcontra.1, hcontra.2])

theorem deleteThread_some {s : DBState} {tid : Nat} {s' : DBState}
    (h : deleteThread s tid = some s') :
    s' = cascadeDelete s tid ∧ cascadeBlocked s tid = false := by
  unfold deleteThread at h
  obtain ⟨hc, hv⟩ := if_none_eq_some h
  exact ⟨hv.symm, by simpa using hc⟩

/-! ## C2: sender exclusivity -/

/-- C2: every persisted message has exactly one author reference —
either a user id or an agent id, never both and never neither; a row
violating `message_sender_check` is never admitted (the INSERT
fails). -/
theorem c2_sender_exclusivity :
    (∀ s : DBState, Reach s →
      s.messages.all message_sender_check = true) ∧
    (∀ (s : DBState) (m : MessageRow), message_sender_check m = false →
      insertMessage s m = none) := by
  constructor
  · intro s hs
    rw [List.all_eq_true]
    induction hs with
    | empty => intro m hm; simp [DBState.empty] at hm
    | user _ heq ih => rw [insertUser_some heq]; exact ih
    | thread _ heq ih => rw [(insertThread_some heq).1]; exact ih
    | participant _ heq ih => rw [insertParticipant_some heq]; exact ih
    | agent _ heq ih => rw [(insertThreadAgent_some heq).1]; exact ih
    | message _ heq ih =>
        obtain ⟨hv, hchk, -⟩ := insertMessage_some heq
        rw [hv]
        intro m hm
        simp only [List.mem_append, List.mem_singleton] at hm
        rcases hm with hm | hm
        · exact ih m hm
        · rw [hm]; exact hchk
    | titleUpdate _ heq ih => rw [(updateThreadTitle_some heq).1]; exact ih
    | tombstone _ ih =>
        intro m hm
        simp only [tombstoneMessage, List.mem_map] at hm
        obtain ⟨m0, hm0, hmap⟩ := hm
        have := ih m0 hm0
        subst hmap
        unfold message_sender_check at this ⊢
        split <;> simpa using this
    | delete _ heq ih =>
        rw [(deleteThread_some heq).1]
        intro m hm
        exact ih m (List.mem_of_mem_filter hm)
  · intro s m hbad
    unfold insertMessage
    simp [hbad]

theorem reach_dbWithAlice : Reach dbWithAlice :=
  @Reach.user DBState.empty aliceRow dbWithAlice Reach.empty (by decide)

theorem reach_dbWithThread : Reach dbWithThread :=
  @Reach.thread dbWithAlice helloThread dbWithThread reach_dbWithAlice
    (by decide)

/-- C2 witness: at the concrete fixture, the reachable state holds
only valid rows and the both-authors row is rejected. -/
theorem c2_sender_exclusivity_witness :
    dbWithThread.messages.all message_sender_check = true ∧
    insertMessage dbWithThread msgBothAuthors = none :=
  ⟨c2_sender_exclusivity.1 dbWithThread reach_dbWithThread,
   c2_sender_exclusivity.2 dbWithThread msgBothAuthors (by decide)⟩

/-! ## C10: non-blank thread titles -/

/-- C10 counterexample: the CHECK constraint trims only the space
character, so a tab-only title — whitespace-only in the claim's sense
— is admitted into a reachable persisted state. -/
theorem c10_counterexample_tab_title :
    Reach dbTabTitle ∧ tabTitleThread ∈ dbTabTitle.threads ∧
    wsTrim tabTitleThread.title = "" ∧
    sqlTrim tabTitleThread.title = "\t" :=
  ⟨@Reach.thread dbWithAlice tabTitleThread dbTabTitle reach_dbWithAlice
      (by decide),
   by decide, by decide, by decide⟩

/-- C10 (amended): every persisted thread has a title that is
non-empty after trimming leading and trailing space characters (the
semantics of the SQL `TRIM`); an insert or update that would give a
thread a title of only spaces or the empty string is rejected. -/
theorem c10_title_nonblank :
    (∀ s : DBState, Reach s →
      s.threads.all thread_title_not_empty = true) ∧
    (∀ (s : DBState) (t : ThreadRow), thread_title_not_empty t = false →
      insertThread s t = none) ∧
    (∀ (s : DBState) (tid : Nat) (ti : String) (now : Nat),
      s.threads.any (fun t => t.id == tid) = true →
      (sqlTrim ti).length = 0 →
      updateThreadTitle s tid ti now = none) := by
  refine ⟨?_, ?_, ?_⟩
  · intro s hs
    rw [List.all_eq_true]
    induction hs with
    | empty => intro t ht; simp [DBState.empty] at ht
    | user _ heq ih => rw [insertUser_some heq]; exact ih
    | thread _ heq ih =>
        obtain ⟨hv, hchk⟩ := insertThread_some heq
        rw [hv]
        intro t ht
        simp only [List.mem_append, List.mem_singleton] at ht
        rcases ht with ht | ht
        · exact ih t ht
        · rw [ht]; exact hchk
    | participant _ heq ih => rw [insertParticipant_some heq]; exact ih
    | agent _ heq ih => rw [(insertThreadAgent_some heq).1]; exact ih
    | message _ heq ih => rw [(insertMessage_some heq).1]; exact ih
    | titleUpdate _ heq ih =>
        rename_i s0 tid0 ti0 now0 s1 hreach0
        obtain ⟨hv, hguard⟩ := updateThreadTitle_some heq
        rw [hv]
        intro t ht
        simp only [List.mem_map] at ht
        obtain ⟨t0, ht0, hmap⟩ := ht
        by_cases hid : (t0.id == tid0) = true
        · rw [← hmap, if_pos hid]
          have hany : (s0.threads.any (fun r => r.id == tid0)) = true :=
            List.any_eq_true.mpr ⟨t0, ht0, hid⟩
          have hlen : ¬(sqlTrim ti0).length = 0 := fun h0 =>
            hguard ⟨hany, h0⟩
          exact decide_eq_true (Nat.pos_of_ne_zero hlen)
        · rw [← hmap, if_neg hid]; exact ih t0 ht0
    | tombstone _ ih => exact ih
    | delete _ heq ih =>
        rw [(deleteThread_some heq).1]
        intro t ht
        exact ih t (List.mem_of_mem_filter ht)
  · intro s t hbad
    unfold insertThread
    simp [hbad]
  · intro s tid ti now hany hlen
    unfold updateThreadTitle
    simp [hany, hlen]

/-- C10 witness: the tab-titled state satisfies the amended invariant,
and both the blank INSERT and the blank UPDATE are rejected. -/
theorem c10_title_nonblank_witness :
    dbTabTitle.threads.all thread_title_not_empty = true ∧
    insertThread dbWithAlice { helloThread with title := " " } = none ∧
    updateThreadTitle dbWithThread 1 "" 9 = none :=
  ⟨c10_title_nonblank.1 dbTabTitle
      (@Reach.thread dbWithAlice tabTitleThread dbTabTitle
        reach_dbWithAlice (by decide)),
   c10_title_nonblank.2.1 dbWithAlice _ (by decide),
   c10_title_nonblank.2.2 dbWithThread 1 "" 9 (by decide) (by decide)⟩

/-! ## C5: uniqueness of agent bindings -/

theorem reach_dbTwoLawyers : Reach dbTwoLawyers :=
  @Reach.agent dbOneLawyer lawyerBinding2 dbTwoLawyers
    (@Reach.agent dbWithThread lawyerBinding1 dbOneLawyer
      reach_dbWithThread (by decide))
    (by decide)

/-- C5 counterexample: the schema admits — into a reachable state —
two `thread_agents` rows binding the same agent-type to the same
thread; no unique key over (thread_id, agent_type) exists. -/
theorem c5_counterexample_duplicate_binding :
    Reach dbTwoLawyers ∧
    dbTwoLawyers.thread_agents.countP (fun a =>
      a.thread_id == some 1 && a.agent_type == AgentTypeE.lawyer) = 2 :=
  ⟨reach_dbTwoLawyers, by decide⟩

/-- C5 (amended): `thread_agents` enforces no uniqueness over
(thread_id, agent_type) — a thread may bind the same agent-type more
than once; the only enforced key is the `id` primary key, whose values
are pairwise distinct in every reachable state. -/
theorem c5_binding_ids_unique :
    ∀ s : DBState, Reach s →
      (s.thread_agents.map (fun a => a.id)).Nodup := by
  intro s hs
  induction hs with
  | empty => simp [DBState.empty]
  | user _ heq ih => rw [insertUser_some heq]; exact ih
  | thread _ heq ih => rw [(insertThread_some heq).1]; exact ih
  | participant _ heq ih => rw [insertParticipant_some heq]; exact ih
  | agent _ heq ih =>
      obtain ⟨hv, hfresh⟩ := insertThreadAgent_some heq
      rw [hv]
      simp only [List.map_append, List.map_cons, List.map_nil]
      rw [List.nodup_append]
      refine ⟨ih, List.nodup_singleton _, ?_⟩
      intro x hx hx1
      simp only [List.mem_singleton] at hx1
      subst hx1
      obtain ⟨r, hr, hrid⟩ := List.mem_map.mp hx
      have hall := List.any_eq_false.mp hfresh r hr
      simp only [beq_iff_eq] at hall
      exact hall hrid
  | message _ heq ih => rw [(insertMessage_some heq).1]; exact ih
  | titleUpdate _ heq ih => rw [(updateThreadTitle_some heq).1]; exact ih
  | tombstone _ ih => exact ih
  | delete _ heq ih =>
      rw [(deleteThread_some heq).1]
      exact (((List.filter_sublist _).map _).nodup) ih

/-- C5 witness: the amended invariant at the duplicate-binding
state. -/
theorem c5_binding_ids_unique_witness :
    (dbTwoLawyers.thread_agents.map (fun a => a.id)).Nodup :=
  c5_binding_ids_unique dbTwoLawyers reach_dbTwoLawyers

/-! ## C6: physical thread deletion -/

/-- C6 counterexample: a thread that exists in a reachable state is
physically removed by `deleteThread` — the repository's
`threadService.deleteThread` endpoint client together with the
schema's ON DELETE CASCADE — so existence is not preserved forever. -/
theorem c6_counterexample_thread_deleted :
    Reach dbWithThread ∧ helloThread ∈ dbWithThread.threads ∧
    deleteThread dbWithThread 1 = some dbWithAlice ∧
    helloThread ∉ dbWithAlice.threads :=
  ⟨reach_dbWithThread, by decide, by decide, by decide⟩

/-- C6 (amended): threads can be physically deleted; a successful
DELETE of thread `tid` removes the thread row and cascades away its
messages, participants and agent bindings, leaving users intact. -/
theorem c6_delete_thread_cascades {s : DBState} {tid : Nat}
    {s' : DBState} (h : deleteThread s tid = some s') :
    s'.threads.all (fun t => t.id != tid) = true ∧
    s'.messages.all (fun m => m.thread_id != tid) = true ∧
    s'.thread_participants.all (fun p => p.thread_id != tid) = true ∧
    s'.thread_agents.all (fun a => a.thread_id != some tid) = true ∧
    s'.users = s.users := by
  obtain ⟨hv, -⟩ := deleteThread_some h
  subst hv
  unfold cascadeDelete
  refine ⟨?_, ?_, ?_, ?_, rfl⟩ <;>
    { rw [List.all_eq_true]
      intro x hx
      exact (List.mem_filter.mp hx).2 }

/-- C6 witness: the cascade facts at the concrete deletion. -/
theorem c6_delete_thread_cascades_witness :
    dbWithAlice.threads.all (fun t => t.id != 1) = true ∧
    dbWithAlice.users = dbWithThread.users :=
  ⟨(c6_delete_thread_cascades
      (show deleteThread dbWithThread 1 = some dbWithAlice by decide)).1,
   (c6_delete_thread_cascades
      (show deleteThread dbWithThread 1 = some dbWithAlice by
        decide)).2.2.2.2⟩

/-! ## C7: parent references -/

theorem fkOk_append {x : Option Nat} {ids more : List Nat}
    (h : fkOk x ids = true) : fkOk x (ids ++ more) = true := by
  cases x with
  | none => rfl
  | some v =>
      simp only [fkOk, List.elem_iff] at h ⊢
      exact List.mem_append_left _ h

theorem tombstone_msg_ids (s : DBState) (mid ts : Nat) :
    (tombstoneMessage s mid ts).messages.map (fun r => r.id) =
      s.messages.map (fun r => r.id) := by
  unfold tombstoneMessage
  rw [List.map_map]
  apply List.map_congr_left
  intro m _
  by_cases h : m.id = mid <;> simp [h]

/-- C7: every persisted message's parent reference is NULL or the id
of a message present in the store, in every reachable state; an INSERT
whose non-null parent id does not exist fails. -/
theorem c7_parent_exists :
    (∀ s : DBState, Reach s →
      s.messages.all (fun m =>
        fkOk m.parent_id (s.messages.map (fun r => r.id))) = true) ∧
    (∀ (s : DBState) (m : MessageRow),
      fkOk m.parent_id (s.messages.map (fun r => r.id)) = false →
      insertMessage s m = none) := by
  constructor
  · intro s hs
    rw [List.all_eq_true]
    induction hs with
    | empty => intro x hx; simp [DBState.empty] at hx
    | user _ heq ih => rw [insertUser_some heq]; exact ih
    | thread _ heq ih => rw [(insertThread_some heq).1]; exact ih
    | participant _ heq ih => rw [insertParticipant_some heq]; exact ih
    | agent _ heq ih => rw [(insertThreadAgent_some heq).1]; exact ih
    | message _ heq ih =>
        rename_i s0 m s1 hr0
        obtain ⟨hv, -, hpar⟩ := insertMessage_some heq
        rw [hv]
        intro x hx
        simp only [List.mem_append, List.mem_singleton] at hx
        show fkOk x.parent_id
          ((s0.messages ++ [m]).map (fun r => r.id)) = true
        rw [List.map_append]
        rcases hx with hx | hx
        · exact fkOk_append (ih x hx)
        · subst hx; exact fkOk_append hpar
    | titleUpdate _ heq ih => rw [(updateThreadTitle_some heq).1]; exact ih
    | tombstone _ ih =>
        rename_i s0 mid ts hr0
        intro x hx
        rw [tombstone_msg_ids]
        unfold tombstoneMessage at hx
        simp only [List.mem_map] at hx
        obtain ⟨m0, hm0, hmap⟩ := hx
        have hparent_eq : x.parent_id = m0.parent_id := by
          rw [← hmap]
          by_cases h : m0.id = mid <;> simp [h]
        rw [hparent_eq]
        exact ih m0 hm0
    | delete _ heq ih =>
        rename_i s0 tid s1 hr0
        obtain ⟨hv, hok⟩ := deleteThread_some heq
        rw [hv]
        intro x hx
        have hxf : x ∈ List.filter (fun m => m.thread_id != tid)
            s0.messages := by simpa [cascadeDelete] using hx
        have hxmem : x ∈ s0.messages := List.mem_of_mem_filter hxf
        have hxkept : (x.thread_id != tid) = true :=
          (List.mem_filter.mp hxf).2
        cases hpid : x.parent_id with
        | none => simp [fkOk]
        | some p =>
            have hold := ih x hxmem
            rw [hpid] at hold
            simp only [fkOk, List.elem_iff, List.mem_map] at hold
            obtain ⟨mp, hmp, hmpid⟩ := hold
            have hblocked := hok
            unfold cascadeBlocked at hblocked
            rw [List.any_eq_false] at hblocked
            have hxno := hblocked x (List.mem_filter.mpr ⟨hxmem, hxkept⟩)
            simp only [hpid] at hxno
            have hpnotdead : ¬ p ∈ deadMessageIds s0 tid := by
              intro hmem
              apply hxno
              have hcp : (deadMessageIds s0 tid).contains p = true := by
                simpa [List.elem_iff] using hmem
              rw [Bool.or_eq_true]
              exact Or.inl hcp
            by_cases hmt : (mp.thread_id == tid) = true
            · exfalso
              apply hpnotdead
              unfold deadMessageIds
              exact List.mem_map.mpr ⟨mp,
                List.mem_filter.mpr ⟨hmp, hmt⟩, hmpid⟩
            · simp only [fkOk, List.elem_iff, cascadeDelete]
              exact List.mem_map.mpr ⟨mp,
                List.mem_filter.mpr ⟨hmp, by simpa using hmt⟩, hmpid⟩
  · intro s m hbad
    unfold insertMessage
    simp [hbad]

/-- C7 witness: the fixture state satisfies the invariant and the
orphan-parent row is rejected. -/
theorem c7_parent_exists_witness :
    dbWithThread.messages.all (fun m =>
      fkOk m.parent_id (dbWithThread.messages.map (fun r => r.id))) =
        true ∧
    insertMessage dbWithThread msgOrphan = none :=
  ⟨c7_parent_exists.1 dbWithThread reach_dbWithThread,
   c7_parent_exists.2 dbWithThread msgOrphan (by decide)⟩

/-! ## C8: middleware routing -/

/-- C8 counterexample: a `token` cookie that is present but empty at
path `/login` is passed through unchanged, not redirected to
`/threads` — the code tests JavaScript truthiness of the cookie value,
not cookie presence. -/
theorem c8_counterexample_empty_token_cookie :
    Frontend.middleware (some "") "/login" = Frontend.MwResponse.next ∧
    Frontend.MwResponse.next ≠
      Frontend.MwResponse.redirect "/threads" [] :=
  ⟨by decide, by decide⟩

/-- C8 (amended): the middleware is exactly the claimed total routing
function once "a token cookie is present" is read as "the token cookie
is present with a non-empty value": redirect `/login` and `/register`
to `/threads` under a token; redirect paths starting with `/threads`
to `/login` with the original path in `from` when no token; send `/`
to `/threads` or `/login` by token; pass everything else through. -/
theorem c8_middleware_routing (tc : Option String) (p : String) :
    Frontend.middleware tc p =
      Frontend.middlewareClaimed (Frontend.tokenTruthy tc) p := by
  unfold Frontend.middleware Frontend.middlewareClaimed
  cases h1 : p == "/login" <;> cases h2 : p == "/register" <;>
    cases htok : Frontend.tokenTruthy tc <;>
      simp [Frontend.authRoutes, Frontend.protectedRoutes,
        List.contains, List.elem, List.any, h1, h2]

/-! ## C9: auth token persistence -/

/-- C9: `login` and `register` store the returned access token as the
`token` cookie (path `/`, 7-day expiry, sameSite strict) exactly when
the API call succeeds; a rejection propagates unchanged and leaves the
cookie jar untouched. -/
theorem c9_auth_token_persistence (isProd : Bool)
    (jar : Frontend.CookieJar) (r : Frontend.AuthResponse)
    (e : Frontend.ApiError) :
    Frontend.login isProd (Except.ok r) jar =
      (Except.ok r, Frontend.saveToken isProd jar r.access_token) ∧
    Frontend.register isProd (Except.ok r) jar =
      (Except.ok r, Frontend.saveToken isProd jar r.access_token) ∧
    Frontend.getCookie (Frontend.saveToken isProd jar r.access_token)
      "token" = some ⟨r.access_token, ⟨7, "/", "strict", isProd⟩⟩ ∧
    Frontend.login isProd (Except.error e) jar = (Except.error e, jar) ∧
    Frontend.register isProd (Except.error e) jar =
      (Except.error e, jar) := by
  refine ⟨rfl, rfl, ?_, rfl, rfl⟩
  simp [Frontend.getCookie, Frontend.saveToken, Frontend.cookiesSet]

/-! ## C1: per-thread sequence numbers -/

theorem append_keeps_range {s : MessageStore.StoreState} {tid : Nat}
    {a : MessageStore.AuthorRef} {c : String} {pid : Option Nat}
    {now : Nat}
    (ih : ∀ t, (s t).map (fun m => m.seq) =
      List.range' 1 (s t).length) :
    ∀ t, ((MessageStore.append s tid a c pid now).1 t).map
        (fun m => m.seq) =
      List.range' 1
        ((MessageStore.append s tid a c pid now).1 t).length := by
  intro t
  have happ : (MessageStore.append s tid a c pid now).1 t =
      if t = tid
      then s tid ++ [⟨(s tid).length + 1, a, c, pid, now⟩]
      else s t := rfl
  rw [happ]
  by_cases h : t = tid
  · subst h
    rw [if_pos rfl, List.map_append, List.length_append, ih t]
    simp [List.range'_concat, Nat.add_comm]
  · rw [if_neg h]
    exact ih t

/-- C1: in every store state reachable by successful appends — the
timestamps free to tie — each thread's log carries exactly the
sequence numbers 1..n in order: strictly increasing, no duplicates, no
gaps, with n the number of successful appends to that thread. -/
theorem c1_store_seq_gapfree :
    ∀ s : MessageStore.StoreState, MessageStore.StoreReach s →
      ∀ tid : Nat, (s tid).map (fun m => m.seq) =
        List.range' 1 (s tid).length := by
  intro s hs
  induction hs with
  | empty => intro tid; rfl
  | step _ ih => exact append_keeps_range ih

/-- C1 witness: two appends to thread 1 with tied timestamps yield
sequence numbers [1, 2]. -/
theorem c1_store_seq_gapfree_witness :
    (twoAppendsStore 1).map (fun m => m.seq) = List.range' 1 2 :=
  c1_store_seq_gapfree twoAppendsStore
    (MessageStore.StoreReach.step
      (MessageStore.StoreReach.step MessageStore.StoreReach.empty)) 1

/-! ## C3: per-key exclusivity and coalescing -/

theorem orch_invariant :
    ∀ o : Orchestrator.OrchState, Orchestrator.OrchReach o →
      (o.inflight.map (fun i => i.1)).Nodup ∧ o.pending.Nodup := by
  intro o ho
  induction ho with
  | empty => exact ⟨List.nodup_nil, List.nodup_nil⟩
  | trig _ ih =>
      rename_i o0 k hr0
      unfold Orchestrator.trigger
      by_cases hb : Orchestrator.keyBusy o0 k = true
      · rw [if_pos hb]
        by_cases hp : o0.pending.contains k = true
        · rw [if_pos hp]; exact ih
        · rw [if_neg hp]
          refine ⟨ih.1, ?_⟩
          rw [List.nodup_cons]
          exact ⟨fun hmem => hp (by simpa [List.elem_iff] using hmem),
            ih.2⟩
      · rw [if_neg hb]
        refine ⟨?_, ih.2⟩
        rw [List.map_cons, List.nodup_cons]
        refine ⟨?_, ih.1⟩
        intro hmem
        apply hb
        unfold Orchestrator.keyBusy
        rw [List.any_eq_true]
        obtain ⟨i, hi, hik⟩ := List.mem_map.mp hmem
        exact ⟨i, hi, by simp [hik]⟩
  | adv _ ih =>
      rename_i o0 k hr0
      refine ⟨?_, ih.2⟩
      have hkeys : (Orchestrator.advance o0 k).inflight.map
          (fun i => i.1) = o0.inflight.map (fun i => i.1) := by
        unfold Orchestrator.advance
        rw [List.map_map]
        apply List.map_congr_left
        intro i _
        by_cases h : i.1 = k <;> simp [h]
      rw [hkeys]; exact ih.1
  | rel _ ih =>
      rename_i o0 k hr0
      unfold Orchestrator.release
      by_cases hp : o0.pending.contains k = true
      · rw [if_pos hp]
        constructor
        · rw [List.map_cons, List.nodup_cons]
          refine ⟨?_, (((List.filter_sublist _).map _).nodup) ih.1⟩
          intro hmem
          obtain ⟨i, hi, hik⟩ := List.mem_map.mp hmem
          have hne := (List.mem_filter.mp hi).2
          rw [hik] at hne
          simp at hne
        · exact ((List.filter_sublist _).nodup) ih.2
      · rw [if_neg hp]
        exact ⟨(((List.filter_sublist _).map _).nodup) ih.1, ih.2⟩

theorem countP_beq_le_one_of_nodup {α β : Type} [BEq β] [LawfulBEq β]
    {l : List α} {f : α → β} (h : (l.map f).Nodup) (k : β) :
    l.countP (fun x => f x == k) ≤ 1 := by
  induction l with
  | nil => simp
  | cons a as ih =>
      simp only [List.map_cons, List.nodup_cons] at h
      rw [List.countP_cons]
      by_cases hk : (f a == k) = true
      · have hz : as.countP (fun x => f x == k) = 0 := by
          rw [List.countP_eq_zero]
          intro x hx hbeq
          apply h.1
          rw [eq_of_beq hk, ← eq_of_beq hbeq]
          exact List.mem_map_of_mem f hx
        simp [hz, hk]
      · simp only [hk, if_false]
        exact Nat.le_trans (Nat.le_of_eq (Nat.add_zero _))
          (ih h.2)

/-- C3: in every reachable orchestrator state, each (thread,
agent-type) key has at most one invocation in `Selecting`..`Posting`
in flight and at most one coalesced pending re-trigger. -/
theorem c3_key_exclusive_and_coalesced :
    ∀ o : Orchestrator.OrchState, Orchestrator.OrchReach o →
      ∀ k : Orchestrator.OrchKey,
        o.inflight.countP (fun i => i.1 == k) ≤ 1 ∧
        o.pending.countP (fun x => x == k) ≤ 1 := by
  intro o ho k
  obtain ⟨h1, h2⟩ := orch_invariant o ho
  refine ⟨countP_beq_le_one_of_nodup h1 k, ?_⟩
  have hid : (o.pending.map (fun x => x)).Nodup := by simpa using h2
  exact countP_beq_le_one_of_nodup hid k

/-- C3 witness: after two simultaneous triggers for the key
(1, lawyer), at most one invocation is in flight and at most one
re-trigger is pending. -/
theorem c3_key_exclusive_and_coalesced_witness :
    orchTwoTriggers.inflight.countP
      (fun i => i.1 == ((1 : Nat), AgentTypeE.lawyer)) ≤ 1 ∧
    orchTwoTriggers.pending.countP
      (fun x => x == ((1 : Nat), AgentTypeE.lawyer)) ≤ 1 :=
  c3_key_exclusive_and_coalesced orchTwoTriggers
    (Orchestrator.OrchReach.trig
      (Orchestrator.OrchReach.trig Orchestrator.OrchReach.empty))
    ((1 : Nat), AgentTypeE.lawyer)

/-! ## C4: markRead idempotence and monotonicity -/

theorem bumpMarker_idem (x : Option Nat) (mid : Nat) :
    bumpMarker (bumpMarker x mid) mid = bumpMarker x mid := by
  cases x with
  | none => simp [bumpMarker]
  | some c => by_cases h : mid ≤ c <;> simp [bumpMarker, h]

theorem map_eq_self_of_eq {α : Type} {l : List α} {f : α → α}
    (h : ∀ a ∈ l, f a = a) : l.map f = l := by
  induction l with
  | nil => rfl
  | cons a as ih =>
      rw [List.map_cons, h a (List.mem_cons_self a as),
        ih (fun b hb => h b (List.mem_cons_of_mem a hb))]

theorem markRead_idem (ps : List ThreadParticipantRow)
    (tid uid mid : Nat) :
    markRead (markRead ps tid uid mid) tid uid mid =
      markRead ps tid uid mid := by
  unfold markRead
  rw [List.map_map]
  apply List.map_congr_left
  intro p _
  obtain ⟨a, b, c, d, e⟩ := p
  by_cases h : (a == tid && b == uid) = true <;>
    simp [Function.comp, h, bumpMarker_idem]

theorem markRead_noop (ps : List ThreadParticipantRow)
    (tid uid mid : Nat)
    (h : ∀ p ∈ ps, p.thread_id = tid → p.user_id = uid →
      ∃ c, p.last_read_at = some c ∧ mid ≤ c) :
    markRead ps tid uid mid = ps := by
  unfold markRead
  apply map_eq_self_of_eq
  intro p hp
  by_cases hc : (p.thread_id == tid && p.user_id == uid) = true
  · rw [if_pos hc]
    simp only [Bool.and_eq_true, beq_iff_eq] at hc
    obtain ⟨c, hcl, hle⟩ := h p hp hc.1 hc.2
    rw [hcl, show bumpMarker (some c) mid = some c from by
      simp [bumpMarker, hle], ← hcl]
  · rw [if_neg hc]

theorem markRead_advances (ps : List ThreadParticipantRow)
    (tid uid mid : Nat) (p : ThreadParticipantRow) (hp : p ∈ ps)
    (ht : p.thread_id = tid) (hu : p.user_id = uid)
    (hold : p.last_read_at = none ∨
      ∃ c, p.last_read_at = some c ∧ c < mid) :
    { p with last_read_at := some mid } ∈ markRead ps tid uid mid := by
  unfold markRead
  have hbump : bumpMarker p.last_read_at mid = some mid := by
    rcases hold with h0 | ⟨c, hc, hlt⟩
    · rw [h0]; rfl
    · rw [hc]; simp [bumpMarker, Nat.not_le_of_lt hlt]
  have hcond : (p.thread_id == tid && p.user_id == uid) = true := by
    simp [ht, hu]
  refine List.mem_map.mpr ⟨p, hp, ?_⟩
  rw [if_pos hcond, hbump]

theorem noRegress_refl (a : Option Nat) : noRegress a a := by
  cases a with
  | none => trivial
  | some c => exact ⟨c, rfl, Nat.le_refl c⟩

theorem noRegress_trans {a b c : Option Nat} (h1 : noRegress a b)
    (h2 : noRegress b c) : noRegress a c := by
  cases a with
  | none => trivial
  | some x =>
      obtain ⟨y, hby, hxy⟩ := h1
      rw [hby] at h2
      obtain ⟨z, hcz, hyz⟩ := h2
      exact ⟨z, hcz, Nat.le_trans hxy hyz⟩

theorem markRead_noRegress (ps : List ThreadParticipantRow)
    (tid uid mid : Nat) :
    List.Forall₂ (fun p q => noRegress p.last_read_at q.last_read_at)
      ps (markRead ps tid uid mid) := by
  unfold markRead
  induction ps with
  | nil => exact List.Forall₂.nil
  | cons p rest ih =>
      rw [List.map_cons]
      refine List.Forall₂.cons ?_ ih
      by_cases hc : (p.thread_id == tid && p.user_id == uid) = true
      · rw [if_pos hc]
        show noRegress p.last_read_at (bumpMarker p.last_read_at mid)
        cases hx : p.last_read_at with
        | none => trivial
        | some c =>
            by_cases hle : mid ≤ c
            · exact ⟨c, by simp [bumpMarker, hle], Nat.le_refl c⟩
            · exact ⟨mid, by simp [bumpMarker, hle],
                Nat.le_of_lt (Nat.lt_of_not_le hle)⟩
      · rw [if_neg hc]
        exact noRegress_refl p.last_read_at

theorem forall2_marker_trans {ps qs rs : List ThreadParticipantRow}
    (h1 : List.Forall₂
      (fun p q => noRegress p.last_read_at q.last_read_at) ps qs)
    (h2 : List.Forall₂
      (fun p q => noRegress p.last_read_at q.last_read_at) qs rs) :
    List.Forall₂ (fun p q => noRegress p.last_read_at q.last_read_at)
      ps rs := by
  induction h1 generalizing rs with
  | nil => cases h2; exact List.Forall₂.nil
  | cons hpq _ ih =>
      cases h2 with
      | cons hqr h2rest =>
          exact List.Forall₂.cons (noRegress_trans hpq hqr) (ih h2rest)

theorem applyReads_noRegress (ps : List ThreadParticipantRow)
    (calls : List (Nat × Nat × Nat)) :
    List.Forall₂ (fun p q => noRegress p.last_read_at q.last_read_at)
      ps (applyReads ps calls) := by
  induction calls generalizing ps with
  | nil =>
      exact List.forall₂_same.mpr
        (fun x _ => noRegress_refl x.last_read_at)
  | cons c0 cs ih =>
      exact forall2_marker_trans
        (markRead_noRegress ps c0.1 c0.2.1 c0.2.2) (ih _)

/-- C4: `markRead` is idempotent; applied with a message id at or
below the row's current marker it leaves the state unchanged; applied
with a newer id it advances that marker to the new id; and every call
only moves markers forward, so under every order of `markRead` calls
no marker ever regresses. -/
theorem c4_markread_monotone :
    (∀ (ps : List ThreadParticipantRow) (tid uid mid : Nat),
      markRead (markRead ps tid uid mid) tid uid mid =
        markRead ps tid uid mid) ∧
    (∀ (ps : List ThreadParticipantRow) (tid uid mid : Nat),
      (∀ p ∈ ps, p.thread_id = tid → p.user_id = uid →
        ∃ c, p.last_read_at = some c ∧ mid ≤ c) →
      markRead ps tid uid mid = ps) ∧
    (∀ (ps : List ThreadParticipantRow) (tid uid mid : Nat)
        (p : ThreadParticipantRow), p ∈ ps → p.thread_id = tid →
        p.user_id = uid →
        (p.last_read_at = none ∨
          ∃ c, p.last_read_at = some c ∧ c < mid) →
        { p with last_read_at := some mid } ∈
          markRead ps tid uid mid) ∧
    (∀ (ps : List ThreadParticipantRow)
        (calls : List (Nat × Nat × Nat)),
      List.Forall₂ (fun p q => noRegress p.last_read_at q.last_read_at)
        ps (applyReads ps calls)) :=
  ⟨markRead_idem, markRead_noop, markRead_advances,
    applyReads_noRegress⟩

/-- C4 witness: on the one-row fixture with marker 5, marking 3 is a
no-op, marking 9 advances the marker to 9, marking twice equals
marking once, and a two-call sequence never regresses the marker. -/
theorem c4_markread_monotone_witness :
    markRead [partRow] 1 1 3 = [partRow] ∧
    ({ partRow with last_read_at := some 9 } ∈
      markRead [partRow] 1 1 9) ∧
    markRead (markRead [partRow] 1 1 9) 1 1 9 =
      markRead [partRow] 1 1 9 ∧
    List.Forall₂ (fun p q => noRegress p.last_read_at q.last_read_at)
      [partRow] (applyReads [partRow] [(1, 1, 9), (1, 1, 3)]) :=
  ⟨c4_markread_monotone.2.1 [partRow] 1 1 3 (by
      intro p hp h1 h2
      simp only [List.mem_singleton] at hp
      subst hp
      exact ⟨5, rfl, by decide⟩),
   c4_markread_monotone.2.2.1 [partRow] 1 1 9 partRow (by decide)
     (by decide) (by decide) (Or.inr ⟨5, rfl, by decide⟩),
   c4_markread_monotone.1 [partRow] 1 1 9,
   c4_markread_monotone.2.2.2 [partRow] [(1, 1, 9), (1, 1, 3)]⟩

end Cyberiad
